import Mathlib

/-!
Verification development for the field-unlock server of this repository.

The repository ships several near-duplicate variants of the same Express
server.  The definitions below are a shallow embedding of the JavaScript
source:

* the main server (the third variant in `src/server/server.js`, the one with
  audit logging): `loadPasswords`, `savePasswords`, `normalizePasswords`,
  the `/api/verify`, `/api/status` and `/api/admin/set` endpoints;
* the first variant in `src/server/server.js`, whose `savePasswords` writes
  the canonical file directly (`savePasswordsV1Ops`);
* the older server in `src/unnamed/part_002`, whose store is an object
  with a `fields` property: `readPasswords002`, `writePasswords002Ops`,
  `/api/verify` (`verify002`), `/api/admin/test` (`adminTest002`) and
  `/api/admin/status` (`adminStatus002`).

JavaScript values parsed from JSON are modelled by `JSVal` (numbers as
integers, which is enough for the truthiness distinctions the code makes;
objects as association lists of their properties, duplicate JSON keys being
already collapsed by `JSON.parse`).  The bcrypt digest is modelled as a
tagged copy of the hashed password, so that `bcryptCompare` can decide a
match exactly; the costs 10 and 12 are the ones used in the repository.
-/

/-- Model of a JavaScript value as produced by `JSON.parse`, together with
`undefined` (the result of a missed property lookup). -/
inductive JSVal where
  | vUndefined
  | vNull
  | vBool (b : Bool)
  | vNum (n : Int)
  | vStr (s : String)
  | vObj (fields : List (String × JSVal))

/-- First-match lookup in an association list with string keys. -/
def assocLookup {α : Type} : List (String × α) → String → Option α
  | [], _ => none
  | p :: rest, key => if p.1 == key then some p.2 else assocLookup rest key

/-- JavaScript truthiness of a value. -/
def truthy : JSVal → Bool
  | .vUndefined => false
  | .vNull => false
  | .vBool b => b
  | .vNum n => n != 0
  | .vStr s => s != ""
  | .vObj _ => true

/-- Whether `typeof v` is the string "object" (true for `null` as well). -/
def jsTypeofObject : JSVal → Bool
  | .vNull => true
  | .vObj _ => true
  | _ => false

/-- Whether the value is a string. -/
def isStrB : JSVal → Bool
  | .vStr _ => true
  | _ => false

/-- Property access `v[key]` on a value known not to throw: objects yield the
property or `undefined`, primitives yield `undefined`. -/
def objGet (v : JSVal) (key : String) : JSVal :=
  match v with
  | .vObj fields => (assocLookup fields key).getD .vUndefined
  | _ => .vUndefined

/-- Property access `v[key]` with the JavaScript TypeError on `null` and
`undefined` made explicit. -/
def jsGetE (v : JSVal) (key : String) : Except Unit JSVal :=
  match v with
  | .vNull => .error ()
  | .vUndefined => .error ()
  | .vObj fields => .ok ((assocLookup fields key).getD .vUndefined)
  | _ => .ok .vUndefined

/-- JavaScript `a || b`. -/
def jsOr (a b : JSVal) : JSVal :=
  if truthy a then a else b

/-- Model of `bcrypt.hash(password, cost)`: a tagged copy of the password.
The tag makes the digest recognizable and non-empty, and `bcryptCompare` can
invert it, which is all the server relies on. -/
def bcryptHash (cost : Nat) (password : String) : String :=
  "$2b$" ++ toString cost ++ "$" ++ password

/-- Model of `bcrypt.compare(candidate, digest)` on a string digest: true
exactly when the digest was produced from the candidate at one of the two
costs used in the repository (10 in server.js, 12 in part_002).  A string
that is not a digest of the candidate compares false, matching the
treat-hashing-failure-as-no-match behavior. -/
def bcryptCompare (candidate hashed : String) : Bool :=
  hashed == bcryptHash 10 candidate || hashed == bcryptHash 12 candidate

/-- Model of `await bcrypt.compare(candidate, v)` for an arbitrary stored
value: bcryptjs rejects non-string arguments, which surfaces as a caught
exception in the handlers. -/
def bcryptCompareJS (candidate : String) (hashed : JSVal) : Except Unit Bool :=
  match hashed with
  | .vStr s => .ok (bcryptCompare candidate s)
  | _ => .error ()

/-- The fixed list of known field ids f1 through f12, as built by the
`Array.from` expression of the source. -/
def FIELD_IDS : List String :=
  (List.range 12).map (fun i => "f" ++ toString (i + 1))

/-- A normalized per-field record, as produced by `normalizePasswords`:
the `hash` property (kept as a JavaScript value, since the code copies
whatever truthy value was stored) and the `unlocked` flag (always a boolean,
the code computes it with `!!`). -/
structure NEntry where
  hash : JSVal
  unlocked : Bool

/-- Normalization of one stored field value, the loop body of
`normalizePasswords`: legacy bare strings become a locked record, truthy
objects keep `v.hash || ""` and `!!v.unlocked`, anything else becomes the
empty locked record. -/
def normEntry (v : JSVal) : NEntry :=
  match v with
  | .vStr s => ⟨.vStr s, false⟩
  | v =>
    if truthy v && jsTypeofObject v then
      ⟨jsOr (objGet v "hash") (.vStr ""), truthy (objGet v "unlocked")⟩
    else
      ⟨.vStr "", false⟩

/-- The `normalizePasswords` helper of server.js: coerce non-object data to
an empty object, then normalize every known field id. -/
def normalizePasswords (data : JSVal) : List (String × NEntry) :=
  let obj := if truthy data && jsTypeofObject data then data else .vObj []
  FIELD_IDS.map (fun id => (id, normEntry (objGet obj id)))

/-- Serialization of one normalized record back to a JSON object, as
`JSON.stringify` lays it out. -/
def encodeEntry (e : NEntry) : JSVal :=
  .vObj [("hash", e.hash), ("unlocked", .vBool e.unlocked)]

/-- Serialization of the whole mapping, as written by `savePasswords`. -/
def encodePasswords (db : List (String × NEntry)) : JSVal :=
  .vObj (db.map (fun p => (p.1, encodeEntry p.2)))

/-- The initial mapping synthesized by `ensurePasswordsFileExists`: one
entry per known field id with empty hash and locked state. -/
def initialDb : List (String × NEntry) :=
  FIELD_IDS.map (fun id => (id, ⟨.vStr "", false⟩))

/-- Raw content of the passwords file: either bytes that fail `JSON.parse`,
or a parsed JSON value. -/
inductive RawContent where
  | invalid
  | json (v : JSVal)

/-- State of the passwords file: `none` when the file is absent. -/
abbrev PwFile := Option RawContent

/-- The `ensurePasswordsFileExists` helper: write the initial record when
the file is absent. -/
def ensurePasswordsFileExists (fs : PwFile) : PwFile :=
  match fs with
  | none => some (.json (encodePasswords initialDb))
  | some r => some r

/-- Model of `fs.readFileSync` on the passwords file: throws when absent. -/
def readFileSync : PwFile → Except Unit RawContent
  | none => .error ()
  | some r => .ok r

/-- Model of `JSON.parse` applied to raw file content. -/
def jsonParseRaw : RawContent → Except Unit JSVal
  | .invalid => .error ()
  | .json v => .ok v

/-- The `loadPasswords` function of the main server: ensure the file
exists, read it (a read failure would propagate, hence the `Except`), parse
it with the parse failure caught and replaced by an empty object, and
normalize.  Returns the mapping together with the file state after the
ensure step. -/
def loadPasswords (fs : PwFile) : Except Unit (List (String × NEntry) × PwFile) :=
  let fs1 := ensurePasswordsFileExists fs
  match readFileSync fs1 with
  | .error e => .error e
  | .ok raw =>
    let parsed : JSVal :=
      match jsonParseRaw raw with
      | .ok v => v
      | .error _ => .vObj []
    .ok (normalizePasswords parsed, fs1)

/-- The mapping `loadPasswords` returns, as a total function (used to state
frame properties; `load_eq` below proves `loadPasswords` always succeeds
with this value). -/
def loadedMap (fs : PwFile) : List (String × NEntry) :=
  match fs with
  | none => normalizePasswords (encodePasswords initialDb)
  | some .invalid => normalizePasswords (.vObj [])
  | some (.json v) => normalizePasswords v

/-- Effect of `savePasswords` on the canonical file state: the file now
holds the serialized mapping. -/
def savePasswordsFs (db : List (String × NEntry)) : PwFile :=
  some (.json (encodePasswords db))

/-- A file-system operation, for the write traces of the save routines. -/
inductive FsOp where
  | write (path : String) (content : JSVal)
  | rename (src : String) (dst : String)

/-- Whether a trace contains a rename. -/
def hasRename (ops : List FsOp) : Bool :=
  ops.any (fun op => match op with | .rename _ _ => true | _ => false)

/-- Canonical path of the passwords file (basename; the directory part is
common to all paths and irrelevant here). -/
def PASSWORDS_FILE : String := "passwords.json"

/-- The temp path used by the main savePasswords: the canonical path, a
dot, the random UUID, and a .tmp suffix. -/
def tmpPath (uuid : String) : String :=
  PASSWORDS_FILE ++ "." ++ uuid ++ ".tmp"

/-- Write trace of the main savePasswords (server.js, the variant with the
temp file): write the full serialization to a fresh temp path, then rename
it over the canonical path. -/
def savePasswordsOps (uuid : String) (db : List (String × NEntry)) : List FsOp :=
  [.write (tmpPath uuid) (encodePasswords db), .rename (tmpPath uuid) PASSWORDS_FILE]

/-- Write trace of the first server.js variant of savePasswords: a single
direct write of the serialization to the canonical path. -/
def savePasswordsV1Ops (db : List (String × NEntry)) : List FsOp :=
  [.write PASSWORDS_FILE (encodePasswords db)]

/-- Write trace of writePasswords in part_002: a single direct write of the
serialized store to the canonical path. -/
def writePasswords002Ops (store : JSVal) : List FsOp :=
  [.write PASSWORDS_FILE store]

/-- A multi-path file system, for replaying write traces. -/
def FsMap := String → Option JSVal

/-- Apply one file-system operation. -/
def applyOp (m : FsMap) : FsOp → FsMap
  | .write p c => fun q => if q == p then some c else m q
  | .rename src dst => fun q =>
      if q == dst then m src else if q == src then none else m q

/-- Apply a trace of file-system operations in order. -/
def applyOps (m : FsMap) : List FsOp → FsMap
  | [] => m
  | op :: rest => applyOps (applyOp m op) rest

/-- An HTTP response as the handlers produce it. -/
inductive Resp where
  | ok200 (ok : Bool)
  | err400 (msg : String)
  | err500 (msg : String)

/-- An audit log line as written by `appendAudit` (timestamp omitted):
the event name and the detail properties. -/
structure AuditEntry where
  event : String
  details : List (String × JSVal)

/-- Replace the `unlocked` flag of the entry stored under `key`, the model
of `passwords[fieldId].unlocked = b`. -/
def setUnlocked (db : List (String × NEntry)) (key : String) (b : Bool) :
    List (String × NEntry) :=
  db.map (fun p => if p.1 == key then (p.1, ⟨p.2.hash, b⟩) else p)

/-- Replace (or add) the whole entry stored under `key`, the model of the
object assignment to `passwords[fieldId]` in the set handler. -/
def setEntry (db : List (String × NEntry)) (key : String) (e : NEntry) :
    List (String × NEntry) :=
  if db.any (fun p => p.1 == key) then
    db.map (fun p => if p.1 == key then (key, e) else p)
  else
    db ++ [(key, e)]

/-- The GET /api/status handler of the main server: reload, then report the
unlocked flag of every known field.  A load failure would be an unhandled
throw, surfaced by the framework as a 500 (provably unreachable). -/
def statusMain (fs : PwFile) : Resp × List (String × Bool) × PwFile :=
  match loadPasswords fs with
  | .error _ => (.err500 "Internal", [], fs)
  | .ok (db, fs1) =>
    (.ok200 true,
     FIELD_IDS.map (fun id =>
       (id, match assocLookup db id with | some e => e.unlocked | none => false)),
     fs1)

/-- The POST /api/verify handler of the main server (the audited variant,
server.js).  The password argument is a string, the `typeof` guard of the
source being reflected in the type.  Returns the response, the file state
and the audit lines appended during the call. -/
def verifyMain (fs : PwFile) (fieldId password ip : String) :
    Resp × PwFile × List AuditEntry :=
  if !(FIELD_IDS.contains fieldId) then (.err400 "Invalid fieldId", fs, [])
  else
    match loadPasswords fs with
    | .error _ => (.err500 "Internal", fs, [])
    | .ok (db, fs1) =>
      match assocLookup db fieldId with
      | none => (.ok200 false, fs1, [])
      | some entry =>
        if !(truthy entry.hash) then (.ok200 false, fs1, [])
        else
          match bcryptCompareJS password entry.hash with
          | .error _ => (.err500 "Server error", fs1, [])
          | .ok false => (.ok200 false, fs1, [])
          | .ok true =>
            if entry.unlocked then (.ok200 true, fs1, [])
            else
              let db2 := setUnlocked db fieldId true
              (.ok200 true, savePasswordsFs db2,
               [⟨"VERIFY_UNLOCK", [("fieldId", .vStr fieldId), ("ip", .vStr ip)]⟩])

/-- The POST /api/admin/set handler of the main server: validate, reload,
hash the new password at cost 10, replace the record with the new hash and
a cleared unlocked flag, save, audit. -/
def adminSetMain (fs : PwFile) (fieldId password ip : String) :
    Resp × PwFile × List AuditEntry :=
  if !(FIELD_IDS.contains fieldId) then (.err400 "Invalid fieldId", fs, [])
  else if password.length < 1 then (.err400 "Password required", fs, [])
  else
    match loadPasswords fs with
    | .error _ => (.err500 "Internal", fs, [])
    | .ok (db, _) =>
      let hash := bcryptHash 10 password
      let db2 := setEntry db fieldId ⟨.vStr hash, false⟩
      (.ok200 true, savePasswordsFs db2,
       [⟨"ADMIN_SET_PASSWORD", [("fieldId", .vStr fieldId), ("ip", .vStr ip)]⟩])

/-- The readPasswords function of part_002: read and parse, with no
ensure step and no catch, so both an absent file and invalid bytes raise
to the caller. -/
def readPasswords002 (fs : PwFile) : Except Unit JSVal :=
  match fs with
  | none => .error ()
  | some .invalid => .error ()
  | some (.json v) => .ok v

/-- The isValidFieldId check of part_002.  The source tests the regular
expression f followed by 1-9 or 10-12 anchored on both sides, whose match
set is exactly the twelve known field ids. -/
def isValidFieldId (s : String) : Bool :=
  FIELD_IDS.contains s

/-- The POST /api/verify handler of part_002: validate, read the store,
look up `store.fields[fieldId]` (property TypeErrors are caught by the
surrounding try and surface as 500), answer false for a missing hash, and
otherwise answer the bcrypt comparison.  No state is ever written. -/
def verify002 (fs : PwFile) (fieldId value : String) : Resp × PwFile :=
  if !(isValidFieldId fieldId) then (.err400 "Bad request", fs)
  else
    match readPasswords002 fs with
    | .error _ => (.err500 "Server error", fs)
    | .ok store =>
      match jsGetE store "fields" with
      | .error _ => (.err500 "Server error", fs)
      | .ok fieldsVal =>
        match jsGetE fieldsVal fieldId with
        | .error _ => (.err500 "Server error", fs)
        | .ok hash =>
          if !(truthy hash) then (.ok200 false, fs)
          else
            match bcryptCompareJS value hash with
            | .error _ => (.err500 "Server error", fs)
            | .ok b => (.ok200 b, fs)

/-- The POST /api/admin/test handler of part_002, the dry-run password
check: the same validation, read and comparison as verify002, with no
write. -/
def adminTest002 (fs : PwFile) (fieldId password : String) : Resp × PwFile :=
  if !(isValidFieldId fieldId) then (.err400 "Bad request", fs)
  else
    match readPasswords002 fs with
    | .error _ => (.err500 "Server error", fs)
    | .ok store =>
      match jsGetE store "fields" with
      | .error _ => (.err500 "Server error", fs)
      | .ok fieldsVal =>
        match jsGetE fieldsVal fieldId with
        | .error _ => (.err500 "Server error", fs)
        | .ok hash =>
          if !(truthy hash) then (.ok200 false, fs)
          else
            match bcryptCompareJS password hash with
            | .error _ => (.err500 "Server error", fs)
            | .ok b => (.ok200 b, fs)

/-- The GET /api/admin/status handler of part_002: read the store (errors
propagate, there is no try) and report `Boolean(v)` for every entry of
`store.fields`; `Object.entries` of a string enumerates its characters,
of another primitive is empty, and of `null` or `undefined` throws. -/
def adminStatus002 (fs : PwFile) : Except Unit (List (String × Bool)) :=
  match readPasswords002 fs with
  | .error e => .error e
  | .ok store =>
    match jsGetE store "fields" with
    | .error e => .error e
    | .ok (.vObj fields) => .ok (fields.map (fun p => (p.1, truthy p.2)))
    | .ok (.vStr s) => .ok ((List.range s.length).map (fun i => (toString i, true)))
    | .ok .vUndefined => .error ()
    | .ok _ => .ok []

/-- A mapping is valid over the known field-id set when its keys are
exactly the twelve field ids in order and every hash is a string. -/
def ValidMapping (m : List (String × NEntry)) : Prop :=
  m.map Prod.fst = FIELD_IDS ∧ ∀ p ∈ m, isStrB p.2.hash = true

/-- A hash value as `normEntry` can produce it: truthy, or the empty
string. -/
def HashOk (h : JSVal) : Prop :=
  truthy h = true ∨ h = .vStr ""

/-- A mapping shaped like the output of `normalizePasswords`: keyed exactly
by the known field ids, with every hash truthy or the empty string. -/
def NormalGood (db : List (String × NEntry)) : Prop :=
  db.map Prod.fst = FIELD_IDS ∧ ∀ p ∈ db, HashOk p.2.hash

/-- The unlocked flag the status endpoint reports for one id: the flag of
the entry when present, false otherwise (optional chaining in the source). -/
def unlockedGet (db : List (String × NEntry)) (id : String) : Bool :=
  match assocLookup db id with
  | some e => e.unlocked
  | none => false

theorem load_eq (fs : PwFile) :
    loadPasswords fs = .ok (loadedMap fs, ensurePasswordsFileExists fs) := by
  match fs with
  | none => rfl
  | some .invalid => rfl
  | some (.json v) => rfl

theorem loadedMap_ensure (fs : PwFile) :
    loadedMap (ensurePasswordsFileExists fs) = loadedMap fs := by
  match fs with
  | none => rfl
  | some .invalid => rfl
  | some (.json v) => rfl

theorem assocLookup_map_self {α : Type} (ids : List String) (f : String → α)
    (id : String) (h : id ∈ ids) :
    assocLookup (ids.map (fun i => (i, f i))) id = some (f id) := by
  induction ids with
  | nil => cases h
  | cons i rest ih =>
    by_cases hc : i = id
    · subst hc; simp [assocLookup]
    · have hb : (i == id) = false := beq_false_of_ne hc
      rcases List.mem_cons.mp h with h1 | hm
      · exact absurd h1.symm hc
      · simp [assocLookup, hb, ih hm]

theorem assocLookup_map_snd {α β : Type} (db : List (String × α)) (g : α → β)
    (key : String) :
    assocLookup (db.map (fun p => (p.1, g p.2))) key = (assocLookup db key).map g := by
  induction db with
  | nil => rfl
  | cons p rest ih =>
    simp only [List.map_cons, assocLookup]
    by_cases hb : (p.1 == key) = true
    · simp [hb]
    · simp [Bool.not_eq_true] at hb
      simp [hb, ih]

theorem normalize_keys (v : JSVal) :
    (normalizePasswords v).map Prod.fst = FIELD_IDS := by
  simp [normalizePasswords, List.map_map, Function.comp_def]

theorem normEntry_hashOk (v : JSVal) : HashOk (normEntry v).hash := by
  match v with
  | .vStr s =>
    by_cases hs : s = ""
    · right; simp [normEntry, hs]
    · left; simp [normEntry, truthy, hs]
  | .vUndefined | .vNull | .vBool _ | .vNum _ | .vObj _ =>
    simp only [normEntry]
    split
    · rename_i hcond
      unfold jsOr
      split
      · left; assumption
      · right; rfl
    · right; rfl

theorem normalize_good (v : JSVal) : NormalGood (normalizePasswords v) := by
  refine ⟨normalize_keys v, ?_⟩
  intro p hp
  simp only [normalizePasswords, List.mem_map] at hp
  obtain ⟨id, _, rfl⟩ := hp
  exact normEntry_hashOk _

theorem normEntry_encodeEntry (e : NEntry) (h : HashOk e.hash) :
    normEntry (encodeEntry e) = e := by
  obtain ⟨eh, eu⟩ := e
  show (⟨jsOr eh (.vStr ""), truthy (.vBool eu)⟩ : NEntry) = ⟨eh, eu⟩
  rcases h with h | h
  · unfold jsOr
    rw [if_pos h]
    rfl
  · simp only at h
    subst h
    rfl

theorem assocLookup_self_of_nodup {α : Type} (db : List (String × α))
    (hnd : (db.map Prod.fst).Nodup) (p : String × α) (hp : p ∈ db) :
    assocLookup db p.1 = some p.2 := by
  induction db with
  | nil => cases hp
  | cons q rest ih =>
    rcases List.mem_cons.mp hp with h1 | hm
    · subst h1; simp [assocLookup]
    · have hq : q.1 ∉ rest.map Prod.fst := (List.nodup_cons.mp hnd).1
      have hne : (q.1 == p.1) = false := by
        apply beq_false_of_ne
        intro hEq
        exact hq (hEq ▸ List.mem_map.mpr ⟨p, hm, rfl⟩)
      simp [assocLookup, hne, ih (List.nodup_cons.mp hnd).2 hm]

theorem roundtrip (db : List (String × NEntry)) (h : NormalGood db) :
    normalizePasswords (encodePasswords db) = db := by
  obtain ⟨hkeys, hhash⟩ := h
  have hnd : (db.map Prod.fst).Nodup := by rw [hkeys]; decide
  show FIELD_IDS.map (fun id => (id, normEntry (objGet (encodePasswords db) id))) = db
  rw [← hkeys, List.map_map]
  have hpt : ∀ p ∈ db,
      ((fun id => (id, normEntry (objGet (encodePasswords db) id))) ∘ Prod.fst) p = p := by
    intro p hp
    have h1 : objGet (encodePasswords db) p.1 = encodeEntry p.2 := by
      show (assocLookup (db.map (fun q => (q.1, encodeEntry q.2))) p.1).getD .vUndefined
          = encodeEntry p.2
      rw [assocLookup_map_snd, assocLookup_self_of_nodup db hnd p hp]
      rfl
    simp only [Function.comp_apply, h1, normEntry_encodeEntry p.2 (hhash p hp)]
  rw [List.map_congr_left hpt]
  simp

theorem bcryptHash_ne_empty (cost : Nat) (pw : String) : bcryptHash cost pw ≠ "" := by
  intro h
  have hlen := congrArg String.length h
  have h1 : ("$2b$" : String).length = 4 := rfl
  have h2 : ("$" : String).length = 1 := rfl
  have h3 : ("" : String).length = 0 := rfl
  simp [bcryptHash, String.length_append, h1, h2, h3] at hlen

theorem truthy_bcryptHash (cost : Nat) (pw : String) :
    truthy (.vStr (bcryptHash cost pw)) = true := by
  simp [truthy, bne_iff_ne]
  exact bcryptHash_ne_empty cost pw

theorem bcryptCompare_hash_self (pw : String) :
    bcryptCompare pw (bcryptHash 10 pw) = true := by
  simp [bcryptCompare]

theorem not_length_lt_one (s : String) (h : s ≠ "") : ¬ s.length < 1 := by
  intro hl
  apply h
  cases s with
  | mk data =>
    cases data with
    | nil => rfl
    | cons c cs => simp [String.length] at hl

theorem contains_eq_true_of_mem {l : List String} {a : String} (h : a ∈ l) :
    l.contains a = true := by
  induction l with
  | nil => cases h
  | cons b rest ih =>
    rcases List.mem_cons.mp h with h1 | hm
    · subst h1; simp [List.contains_cons]
    · simp only [List.contains_cons]
      simp [hm]

theorem setEntry_any_true {db : List (String × NEntry)} {key : String}
    (h : key ∈ db.map Prod.fst) : (db.any (fun p => p.1 == key)) = true := by
  rw [List.any_eq_true]
  obtain ⟨p, hp, hk⟩ := List.mem_map.mp h
  exact ⟨p, hp, by simp [hk]⟩

theorem setEntry_keys {db : List (String × NEntry)} {key : String} (e : NEntry)
    (h : key ∈ db.map Prod.fst) :
    (setEntry db key e).map Prod.fst = db.map Prod.fst := by
  unfold setEntry
  rw [if_pos (setEntry_any_true h), List.map_map]
  apply List.map_congr_left
  intro p _
  by_cases hb : p.1 = key
  · simp [hb]
  · simp [hb]

theorem assocLookup_replace (db : List (String × NEntry)) (key : String) (e : NEntry)
    (h : key ∈ db.map Prod.fst) :
    assocLookup (db.map (fun p => if p.1 == key then (key, e) else p)) key = some e := by
  induction db with
  | nil => cases h
  | cons q rest ih =>
    by_cases hb : q.1 = key
    · simp [assocLookup, hb]
    · have hm : key ∈ rest.map Prod.fst := by
        rcases List.mem_cons.mp h with h1 | hm
        · exact absurd h1.symm hb
        · exact hm
      have hrec := ih hm
      simp only [List.map_cons, assocLookup]
      simp only [beq_iff_eq, hb, if_false]
      simpa [assocLookup, hb] using hrec

theorem assocLookup_setEntry_self (db : List (String × NEntry)) (key : String)
    (e : NEntry) (h : key ∈ db.map Prod.fst) :
    assocLookup (setEntry db key e) key = some e := by
  unfold setEntry
  rw [if_pos (setEntry_any_true h)]
  exact assocLookup_replace db key e h

theorem setEntry_good {db : List (String × NEntry)} (h : NormalGood db)
    {key : String} (hk : key ∈ FIELD_IDS) {e : NEntry} (he : HashOk e.hash) :
    NormalGood (setEntry db key e) := by
  have hkm : key ∈ db.map Prod.fst := h.1 ▸ hk
  refine ⟨(setEntry_keys e hkm).trans h.1, ?_⟩
  intro p hp
  unfold setEntry at hp
  rw [if_pos (setEntry_any_true hkm)] at hp
  obtain ⟨q, hq, hpq⟩ := List.mem_map.mp hp
  by_cases hb : q.1 = key
  · rw [if_pos (beq_of_eq hb)] at hpq; subst hpq; exact he
  · rw [if_neg (by simp [hb])] at hpq; subst hpq; exact h.2 q hq

theorem setUnlocked_keys (db : List (String × NEntry)) (key : String) (b : Bool) :
    (setUnlocked db key b).map Prod.fst = db.map Prod.fst := by
  unfold setUnlocked
  rw [List.map_map]
  apply List.map_congr_left
  intro p _
  by_cases hb : p.1 = key
  · simp [hb]
  · simp [hb]

theorem assocLookup_setUnlocked_self (db : List (String × NEntry)) (key : String)
    (b : Bool) (e : NEntry) (h : assocLookup db key = some e) :
    assocLookup (setUnlocked db key b) key = some ⟨e.hash, b⟩ := by
  induction db with
  | nil => cases h
  | cons q rest ih =>
    by_cases hb : q.1 = key
    · simp only [assocLookup, beq_iff_eq, hb, if_true] at h
      injection h with h
      subst h
      simp [setUnlocked, assocLookup, hb]
    · simp only [assocLookup, beq_iff_eq, hb, if_false] at h
      have hrec := ih h
      simp only [setUnlocked, List.map_cons, assocLookup]
      simp only [beq_iff_eq, hb, if_false]
      simpa [setUnlocked, assocLookup, hb] using hrec

theorem setUnlocked_good {db : List (String × NEntry)} (h : NormalGood db)
    (key : String) (b : Bool) : NormalGood (setUnlocked db key b) := by
  refine ⟨(setUnlocked_keys db key b).trans h.1, ?_⟩
  intro p hp
  unfold setUnlocked at hp
  obtain ⟨q, hq, hpq⟩ := List.mem_map.mp hp
  by_cases hb : q.1 = key
  · rw [if_pos (beq_of_eq hb)] at hpq; subst hpq; exact h.2 q hq
  · rw [if_neg (by simp [hb])] at hpq; subst hpq; exact h.2 q hq

theorem loadedMap_good (fs : PwFile) : NormalGood (loadedMap fs) := by
  match fs with
  | none => exact normalize_good _
  | some .invalid => exact normalize_good _
  | some (.json v) => exact normalize_good _

theorem loadedMap_save (db : List (String × NEntry)) (h : NormalGood db) :
    loadedMap (savePasswordsFs db) = db :=
  roundtrip db h

theorem ensure_save (db : List (String × NEntry)) :
    ensurePasswordsFileExists (savePasswordsFs db) = savePasswordsFs db := rfl

theorem adminSetMain_eq (fs : PwFile) (f pw ip : String)
    (hc : f ∈ FIELD_IDS) (hpw : pw ≠ "") :
    adminSetMain fs f pw ip = (.ok200 true,
      savePasswordsFs (setEntry (loadedMap fs) f ⟨.vStr (bcryptHash 10 pw), false⟩),
      [⟨"ADMIN_SET_PASSWORD", [("fieldId", .vStr f), ("ip", .vStr ip)]⟩]) := by
  unfold adminSetMain
  rw [load_eq]
  simp only [contains_eq_true_of_mem hc, Bool.not_true, Bool.false_eq_true, if_false,
    if_neg (not_length_lt_one pw hpw)]

theorem verifyMain_fresh (fs : PwFile) (f pw ip : String) (e : NEntry)
    (hc : f ∈ FIELD_IDS)
    (he : assocLookup (loadedMap fs) f = some e)
    (ht : truthy e.hash = true)
    (hcmp : bcryptCompareJS pw e.hash = .ok true)
    (hu : e.unlocked = false) :
    verifyMain fs f pw ip = (.ok200 true,
      savePasswordsFs (setUnlocked (loadedMap fs) f true),
      [⟨"VERIFY_UNLOCK", [("fieldId", .vStr f), ("ip", .vStr ip)]⟩]) := by
  unfold verifyMain
  rw [load_eq]
  simp only [contains_eq_true_of_mem hc, Bool.not_true, Bool.false_eq_true, if_false]
  rw [he]
  simp only [ht, Bool.not_true, Bool.false_eq_true, if_false]
  rw [hcmp]
  simp only [hu, Bool.false_eq_true, if_false]

theorem verifyMain_nohash (fs : PwFile) (f pw ip : String) (e : NEntry)
    (hc : f ∈ FIELD_IDS)
    (he : assocLookup (loadedMap fs) f = some e)
    (ht : truthy e.hash = false) :
    verifyMain fs f pw ip = (.ok200 false, ensurePasswordsFileExists fs, []) := by
  unfold verifyMain
  rw [load_eq]
  simp only [contains_eq_true_of_mem hc, Bool.not_true, Bool.false_eq_true, if_false]
  rw [he]
  simp only [ht, Bool.not_false, if_true]

theorem verifyMain_mismatch (fs : PwFile) (f pw ip : String) (e : NEntry)
    (hc : f ∈ FIELD_IDS)
    (he : assocLookup (loadedMap fs) f = some e)
    (ht : truthy e.hash = true)
    (hcmp : bcryptCompareJS pw e.hash = .ok false) :
    verifyMain fs f pw ip = (.ok200 false, ensurePasswordsFileExists fs, []) := by
  unfold verifyMain
  rw [load_eq]
  simp only [contains_eq_true_of_mem hc, Bool.not_true, Bool.false_eq_true, if_false]
  rw [he]
  simp only [ht, Bool.not_true, Bool.false_eq_true, if_false]
  rw [hcmp]

theorem verifyMain_noentry (fs : PwFile) (f pw ip : String)
    (hc : f ∈ FIELD_IDS)
    (he : assocLookup (loadedMap fs) f = none) :
    verifyMain fs f pw ip = (.ok200 false, ensurePasswordsFileExists fs, []) := by
  unfold verifyMain
  rw [load_eq]
  simp only [contains_eq_true_of_mem hc, Bool.not_true, Bool.false_eq_true, if_false]
  rw [he]

theorem verifyMain_cmperror (fs : PwFile) (f pw ip : String) (e : NEntry)
    (hc : f ∈ FIELD_IDS)
    (he : assocLookup (loadedMap fs) f = some e)
    (ht : truthy e.hash = true)
    (hcmp : bcryptCompareJS pw e.hash = .error ()) :
    verifyMain fs f pw ip = (.err500 "Server error", ensurePasswordsFileExists fs, []) := by
  unfold verifyMain
  rw [load_eq]
  simp only [contains_eq_true_of_mem hc, Bool.not_true, Bool.false_eq_true, if_false]
  rw [he]
  simp only [ht, Bool.not_true, Bool.false_eq_true, if_false]
  rw [hcmp]

theorem verifyMain_already (fs : PwFile) (f pw ip : String) (e : NEntry)
    (hc : f ∈ FIELD_IDS)
    (he : assocLookup (loadedMap fs) f = some e)
    (ht : truthy e.hash = true)
    (hcmp : bcryptCompareJS pw e.hash = .ok true)
    (hu : e.unlocked = true) :
    verifyMain fs f pw ip = (.ok200 true, ensurePasswordsFileExists fs, []) := by
  unfold verifyMain
  rw [load_eq]
  simp only [contains_eq_true_of_mem hc, Bool.not_true, Bool.false_eq_true, if_false]
  rw [he]
  simp only [ht, Bool.not_true, Bool.false_eq_true, if_false]
  rw [hcmp]
  simp only [hu, if_true]

theorem mem_of_contains_eq_true {l : List String} {a : String}
    (h : l.contains a = true) : a ∈ l := by
  induction l with
  | nil => cases h
  | cons b rest ih =>
    simp only [List.contains_cons, Bool.or_eq_true, beq_iff_eq] at h
    rcases h with rfl | h
    · exact List.mem_cons_self a rest
    · exact List.mem_cons_of_mem b (ih h)

theorem contains_eq_false_of_not_mem {l : List String} {a : String}
    (h : a ∉ l) : l.contains a = false := by
  cases hb : l.contains a with
  | false => rfl
  | true => exact absurd (mem_of_contains_eq_true hb) h

theorem statusMain_eq (fs : PwFile) :
    statusMain fs = (.ok200 true,
      FIELD_IDS.map (fun id => (id, unlockedGet (loadedMap fs) id)),
      ensurePasswordsFileExists fs) := by
  unfold statusMain
  rw [load_eq]
  rfl

theorem statusMain_lookup (fs : PwFile) (f : String) (hf : f ∈ FIELD_IDS) :
    assocLookup (statusMain fs).2.1 f = some (unlockedGet (loadedMap fs) f) := by
  rw [statusMain_eq]
  exact assocLookup_map_self FIELD_IDS _ f hf

theorem initialDb_good : NormalGood initialDb := by
  constructor
  · simp [initialDb, List.map_map, Function.comp_def]
  · intro p hp
    obtain ⟨id, _, rfl⟩ := List.mem_map.mp hp
    exact Or.inr rfl

theorem loadedMap_none_lookup (f : String) (hf : f ∈ FIELD_IDS) :
    assocLookup (loadedMap none) f = some ⟨.vStr "", false⟩ := by
  show assocLookup (normalizePasswords (encodePasswords initialDb)) f = _
  rw [roundtrip initialDb initialDb_good]
  exact assocLookup_map_self FIELD_IDS _ f hf

theorem hashOk_of_isStr (v : JSVal) (h : isStrB v = true) : HashOk v := by
  match v with
  | .vStr s =>
    by_cases hs : s = ""
    · exact Or.inr (by rw [hs])
    · exact Or.inl (by simp [truthy, bne_iff_ne, hs])
  | .vUndefined => cases h
  | .vNull => cases h
  | .vBool _ => cases h
  | .vNum _ => cases h
  | .vObj _ => cases h

/-- C1: for every known field id and non-empty secret s, after the admin
set operation completes, a following verify with the same secret returns
ok mapped to true, and a subsequent status query reports that field as
unlocked. -/
theorem set_then_verify_unlocks (fs : PwFile) (f s ipA ipV : String)
    (hf : f ∈ FIELD_IDS) (hs : s ≠ "") :
    (verifyMain (adminSetMain fs f s ipA).2.1 f s ipV).1 = Resp.ok200 true ∧
    assocLookup (statusMain (verifyMain (adminSetMain fs f s ipA).2.1 f s ipV).2.1).2.1 f
      = some true := by
  have hset := adminSetMain_eq fs f s ipA hf hs
  have hgood2 : NormalGood (setEntry (loadedMap fs) f ⟨.vStr (bcryptHash 10 s), false⟩) :=
    setEntry_good (loadedMap_good fs) hf (Or.inl (truthy_bcryptHash 10 s))
  have hfs1 : (adminSetMain fs f s ipA).2.1
      = savePasswordsFs (setEntry (loadedMap fs) f ⟨.vStr (bcryptHash 10 s), false⟩) := by
    rw [hset]
  have hload2 : loadedMap (savePasswordsFs (setEntry (loadedMap fs) f ⟨.vStr (bcryptHash 10 s), false⟩))
      = setEntry (loadedMap fs) f ⟨.vStr (bcryptHash 10 s), false⟩ :=
    loadedMap_save _ hgood2
  have hlk2 : assocLookup (setEntry (loadedMap fs) f ⟨.vStr (bcryptHash 10 s), false⟩) f
      = some ⟨.vStr (bcryptHash 10 s), false⟩ :=
    assocLookup_setEntry_self _ _ _ (by rw [(loadedMap_good fs).1]; exact hf)
  have hlk : assocLookup (loadedMap (savePasswordsFs (setEntry (loadedMap fs) f ⟨.vStr (bcryptHash 10 s), false⟩))) f
      = some ⟨.vStr (bcryptHash 10 s), false⟩ := by
    rw [hload2]; exact hlk2
  have hver := verifyMain_fresh _ f s ipV _ hf hlk
    (truthy_bcryptHash 10 s)
    (by show Except.ok (bcryptCompare s (bcryptHash 10 s)) = Except.ok true
        rw [bcryptCompare_hash_self])
    rfl
  constructor
  · rw [hfs1, hver]
  · rw [hfs1, hver]
    dsimp only
    rw [hload2]
    rw [statusMain_lookup _ f hf]
    rw [loadedMap_save _ (setUnlocked_good hgood2 f true)]
    unfold unlockedGet
    rw [assocLookup_setUnlocked_self _ f true _ hlk2]

/-- C2: for every known field id whose stored secret hash is the empty
string, verify returns ok mapped to false for every candidate, appends no
audit line, and leaves the stored mapping (hence the status output)
unchanged, so the field never transitions to unlocked via the public
verification path. -/
theorem verify_no_secret_false (fs : PwFile) (f c ip : String) (e : NEntry)
    (hf : f ∈ FIELD_IDS)
    (he : assocLookup (loadedMap fs) f = some e)
    (hh : e.hash = .vStr "") :
    (verifyMain fs f c ip).1 = Resp.ok200 false ∧
    (verifyMain fs f c ip).2.2 = [] ∧
    loadedMap (verifyMain fs f c ip).2.1 = loadedMap fs ∧
    (statusMain (verifyMain fs f c ip).2.1).2.1 = (statusMain fs).2.1 := by
  have ht : truthy e.hash = false := by rw [hh]; rfl
  have hv := verifyMain_nohash fs f c ip e hf he ht
  rw [hv]
  refine ⟨rfl, rfl, loadedMap_ensure fs, ?_⟩
  rw [statusMain_eq, statusMain_eq]
  dsimp only
  rw [loadedMap_ensure]

/-- C6: for every known field id and non-empty secret, the admin set
operation replaces the field record with the new cost-10 hash and a
cleared unlocked flag, so the field reads locked afterward even if it was
previously unlocked (the starting state is arbitrary). -/
theorem setSecret_relocks (fs : PwFile) (f p ip : String)
    (hf : f ∈ FIELD_IDS) (hp : p ≠ "") :
    (adminSetMain fs f p ip).1 = Resp.ok200 true ∧
    assocLookup (loadedMap (adminSetMain fs f p ip).2.1) f
      = some ⟨.vStr (bcryptHash 10 p), false⟩ := by
  have hset := adminSetMain_eq fs f p ip hf hp
  constructor
  · rw [hset]
  · rw [hset]
    dsimp only
    rw [loadedMap_save _ (setEntry_good (loadedMap_good fs) hf (Or.inl (truthy_bcryptHash 10 p)))]
    exact assocLookup_setEntry_self _ _ _ (by rw [(loadedMap_good fs).1]; exact hf)

/-- C7: when the hash comparison of verify mismatches, the handler
returns ok mapped to false, the stored file is left exactly unchanged and
no audit line is appended; in particular the status output still reports
the unchanged unlocked flag of the field, so an already unlocked field
stays unlocked. -/
theorem verify_mismatch_frame (fs : PwFile) (f c ip : String) (e : NEntry)
    (hf : f ∈ FIELD_IDS)
    (he : assocLookup (loadedMap fs) f = some e)
    (ht : truthy e.hash = true)
    (hcmp : bcryptCompareJS c e.hash = .ok false) :
    verifyMain fs f c ip = (Resp.ok200 false, fs, []) ∧
    assocLookup (statusMain (verifyMain fs f c ip).2.1).2.1 f = some e.unlocked := by
  have hens : ensurePasswordsFileExists fs = fs := by
    match fs with
    | some r => rfl
    | none =>
      exfalso
      rw [loadedMap_none_lookup f hf] at he
      injection he with he
      rw [← he] at ht
      exact absurd ht (by decide)
  have hv := verifyMain_mismatch fs f c ip e hf he ht hcmp
  rw [hens] at hv
  refine ⟨hv, ?_⟩
  rw [hv]
  dsimp only
  rw [statusMain_lookup fs f hf]
  unfold unlockedGet
  rw [he]

/-- C9: for every valid mapping over the known field-id set (string
hashes, boolean flags), loading immediately after saving returns a mapping
equal to the one saved. -/
theorem load_after_save_roundtrip (m : List (String × NEntry)) (h : ValidMapping m) :
    loadPasswords (savePasswordsFs m) = .ok (m, savePasswordsFs m) := by
  have hgood : NormalGood m := ⟨h.1, fun p hp => hashOk_of_isStr _ (h.2 p hp)⟩
  rw [load_eq, loadedMap_save m hgood]
  rfl

/-- C3 amended: a call to verify appends at most one audit line, whose
content is the event name, the field id and the caller ip, never the
submitted candidate; and a line is appended exactly when the call freshly
unlocks the field, that is, when the field id is known, its loaded entry
has a truthy hash, the bcrypt comparison succeeds with a match, and the
field was not already unlocked.  In particular a mismatch, an empty-hash
field, an unknown field and an already-unlocked match all append zero
lines.  The original claim, that every verification attempt emits exactly
one entry carrying the raw submitted value, is refuted by
`verify_mismatch_emits_no_audit`. -/
theorem verify_audit_characterization (fs : PwFile) (f c ip : String) :
    ((verifyMain fs f c ip).2.2 = [] ∨
      (verifyMain fs f c ip).2.2
        = [⟨"VERIFY_UNLOCK", [("fieldId", .vStr f), ("ip", .vStr ip)]⟩]) ∧
    ((verifyMain fs f c ip).2.2 ≠ [] ↔
      f ∈ FIELD_IDS ∧ ∃ e, assocLookup (loadedMap fs) f = some e ∧
        truthy e.hash = true ∧ bcryptCompareJS c e.hash = .ok true ∧
        e.unlocked = false) := by
  by_cases hf : f ∈ FIELD_IDS
  · cases hlk : assocLookup (loadedMap fs) f with
    | none =>
      rw [verifyMain_noentry fs f c ip hf hlk]
      refine ⟨Or.inl rfl, ?_, ?_⟩
      · intro hne; exact absurd rfl hne
      · rintro ⟨-, e, he, -, -, -⟩
        cases he
    | some e =>
      cases ht : truthy e.hash with
      | false =>
        rw [verifyMain_nohash fs f c ip e hf hlk ht]
        refine ⟨Or.inl rfl, ?_, ?_⟩
        · intro hne; exact absurd rfl hne
        · rintro ⟨-, e2, he2, ht2, -, -⟩
          injection he2 with he2
          rw [← he2, ht] at ht2
          cases ht2
      | true =>
        cases hcm : bcryptCompareJS c e.hash with
        | error u =>
          cases u
          rw [verifyMain_cmperror fs f c ip e hf hlk ht hcm]
          refine ⟨Or.inl rfl, ?_, ?_⟩
          · intro hne; exact absurd rfl hne
          · rintro ⟨-, e2, he2, -, hc2, -⟩
            injection he2 with he2
            rw [← he2, hcm] at hc2
            cases hc2
        | ok b =>
          cases b with
          | false =>
            rw [verifyMain_mismatch fs f c ip e hf hlk ht hcm]
            refine ⟨Or.inl rfl, ?_, ?_⟩
            · intro hne; exact absurd rfl hne
            · rintro ⟨-, e2, he2, -, hc2, -⟩
              injection he2 with he2
              rw [← he2, hcm] at hc2
              injection hc2 with hc2
              cases hc2
          | true =>
            cases hu : e.unlocked with
            | true =>
              rw [verifyMain_already fs f c ip e hf hlk ht hcm hu]
              refine ⟨Or.inl rfl, ?_, ?_⟩
              · intro hne; exact absurd rfl hne
              · rintro ⟨-, e2, he2, -, -, hu2⟩
                injection he2 with he2
                rw [← he2, hu] at hu2
                cases hu2
            | false =>
              rw [verifyMain_fresh fs f c ip e hf hlk ht hcm hu]
              refine ⟨Or.inr rfl, ?_, ?_⟩
              · intro _
                exact ⟨hf, e, rfl, ht, hcm, hu⟩
              · intro _
                simp
  · have hb : FIELD_IDS.contains f = false := contains_eq_false_of_not_mem hf
    have hv : verifyMain fs f c ip = (.err400 "Invalid fieldId", fs, []) := by
      unfold verifyMain
      simp only [hb, Bool.not_false, if_true]
    rw [hv]
    refine ⟨Or.inl rfl, ?_, ?_⟩
    · intro hne; exact absurd rfl hne
    · rintro ⟨hf2, -⟩
      exact absurd hf2 hf

/-- C3 counterexample: a mismatched verify on a configured field is a
genuine verification attempt (it answers ok mapped to false) yet appends
zero audit lines, not one, and no stored line ever carries the submitted
candidate. -/
theorem verify_mismatch_emits_no_audit :
    (verifyMain (some (.json (.vObj [("f1",
        .vObj [("hash", .vStr "$2b$10$secret"), ("unlocked", .vBool false)])])))
      "f1" "wrong" "9.9.9.9").1 = Resp.ok200 false ∧
    (verifyMain (some (.json (.vObj [("f1",
        .vObj [("hash", .vStr "$2b$10$secret"), ("unlocked", .vBool false)])])))
      "f1" "wrong" "9.9.9.9").2.2.length = 0 := ⟨rfl, rfl⟩

/-- C4 counterexample: the save implementation of part_002
(writePasswords) performs a single direct write to the canonical passwords
path, with no temporary file and no rename, so not every save in the
repository follows the atomic temp-write-then-replace protocol. -/
theorem writePasswords002_direct_write :
    writePasswords002Ops (.vObj []) = [FsOp.write PASSWORDS_FILE (.vObj [])] ∧
    hasRename (writePasswords002Ops (.vObj [])) = false := ⟨rfl, rfl⟩

/-- C4 amended: the savePasswords of the main server writes the full
serialized mapping to a fresh temp path distinct from the canonical path
and then renames it over the canonical path; replaying any number of steps
of that trace leaves the canonical path holding either the old content or
the complete new serialization, never an intermediate state, and the full
trace installs the new serialization. -/
theorem savePasswords_atomic_replace (uuid : String) (db : List (String × NEntry))
    (fs0 : FsMap) :
    tmpPath uuid ≠ PASSWORDS_FILE ∧
    applyOps fs0 (savePasswordsOps uuid db) PASSWORDS_FILE = some (encodePasswords db) ∧
    ∀ k : Nat,
      applyOps fs0 ((savePasswordsOps uuid db).take k) PASSWORDS_FILE = fs0 PASSWORDS_FILE ∨
      applyOps fs0 ((savePasswordsOps uuid db).take k) PASSWORDS_FILE
        = some (encodePasswords db) := by
  have hne : tmpPath uuid ≠ PASSWORDS_FILE := by
    intro h
    have hlen := congrArg String.length h
    have h1 : ("." : String).length = 1 := rfl
    have h2 : (".tmp" : String).length = 4 := rfl
    simp [tmpPath, String.length_append, h1, h2] at hlen
    omega
  have hbeq : (PASSWORDS_FILE == tmpPath uuid) = false := beq_false_of_ne (Ne.symm hne)
  have happly : applyOps fs0 (savePasswordsOps uuid db) PASSWORDS_FILE
      = some (encodePasswords db) := by
    simp [savePasswordsOps, applyOps, applyOp]
  refine ⟨hne, happly, ?_⟩
  intro k
  match k with
  | 0 => left; rfl
  | 1 =>
    left
    show applyOp fs0 (.write (tmpPath uuid) (encodePasswords db)) PASSWORDS_FILE
        = fs0 PASSWORDS_FILE
    simp [applyOp, hbeq]
  | (n+2) =>
    right
    have htake : (savePasswordsOps uuid db).take (n+2) = savePasswordsOps uuid db :=
      List.take_of_length_le (by simp [savePasswordsOps])
    rw [htake]
    exact happly

/-- C5 counterexample: the readPasswords of part_002 raises to its
caller both when the persisted record is absent and when its bytes fail to
parse, so not every load implementation in the repository is non-raising. -/
theorem readPasswords002_raises :
    readPasswords002 none = .error () ∧
    readPasswords002 (some .invalid) = .error () := ⟨rfl, rfl⟩

/-- C5 amended: the loadPasswords of the main server never raises: on
every file state it returns successfully; when the record is absent it
synthesizes one entry per known field id with empty hash and locked state
and persists that initial record before returning, and when the persisted
bytes are not valid JSON it falls back to the same initialization without
writing. -/
theorem loadPasswords_total_with_fallback :
    (∀ fs : PwFile, ∃ out, loadPasswords fs = .ok out) ∧
    loadPasswords none = .ok (initialDb, some (.json (encodePasswords initialDb))) ∧
    loadPasswords (some .invalid) = .ok (initialDb, some .invalid) :=
  ⟨fun fs => ⟨(loadedMap fs, ensurePasswordsFileExists fs), load_eq fs⟩, rfl, rfl⟩

/-- C8: the admin test endpoint of part_002 performs exactly the same
validation, read and hash comparison as the public verify of part_002,
never changes the stored file whatever the outcome, and therefore never
changes the status output. -/
theorem testSecret_dry_run (fs : PwFile) (f p : String) :
    adminTest002 fs f p = verify002 fs f p ∧
    (adminTest002 fs f p).2 = fs ∧
    adminStatus002 (adminTest002 fs f p).2 = adminStatus002 fs := by
  have hframe : (adminTest002 fs f p).2 = fs := by
    unfold adminTest002
    repeat' split
    all_goals rfl
  exact ⟨rfl, hframe, by rw [hframe]⟩

/-- C10 counterexample: a persisted record whose field object carries a
non-string truthy hash value (here the number 5) is kept as-is by
normalizePasswords, so not every loaded entry has a string hash and the
malformed entry is not replaced by the empty default. -/
theorem normalize_nonstring_hash :
    assocLookup (normalizePasswords (.vObj [("f1", .vObj [("hash", .vNum 5)])])) "f1"
      = some ⟨.vNum 5, false⟩ ∧
    isStrB (JSVal.vNum 5) = false := ⟨rfl, rfl⟩

/-- C10 amended: for every possible persisted content, normalization
returns a mapping whose domain is exactly the twelve known field ids,
every hash is the stored truthy value or the empty string (the unlocked
flag is a boolean by construction), a legacy bare-string value becomes the
string with a cleared flag, and a value that is neither a string nor a
truthy object becomes the empty locked record; a string hash is only
guaranteed when the stored value was a string or falsy. -/
theorem normalizePasswords_shape (v : JSVal) :
    (normalizePasswords v).map Prod.fst = FIELD_IDS ∧
    (∀ p ∈ normalizePasswords v, HashOk p.2.hash) ∧
    (∀ s : String, normEntry (.vStr s) = ⟨.vStr s, false⟩) ∧
    (∀ w : JSVal, isStrB w = false → (truthy w && jsTypeofObject w) = false →
      normEntry w = ⟨.vStr "", false⟩) := by
  refine ⟨normalize_keys v, (normalize_good v).2, fun s => rfl, ?_⟩
  intro w hw hcond
  cases w with
  | vStr s => cases hw
  | vUndefined => rfl
  | vNull => rfl
  | vBool b => simp only [normEntry, hcond, Bool.false_eq_true, if_false]
  | vNum n => simp only [normEntry, hcond, Bool.false_eq_true, if_false]
  | vObj l => simp only [normEntry, hcond, Bool.false_eq_true, if_false]

theorem set_then_verify_unlocks_witness :
    (verifyMain (adminSetMain none "f1" "hunter2" "1.1.1.1").2.1 "f1" "hunter2" "2.2.2.2").1
      = Resp.ok200 true ∧
    assocLookup (statusMain
      (verifyMain (adminSetMain none "f1" "hunter2" "1.1.1.1").2.1 "f1" "hunter2" "2.2.2.2").2.1).2.1
      "f1" = some true :=
  set_then_verify_unlocks none "f1" "hunter2" "1.1.1.1" "2.2.2.2" (by decide) (by decide)

theorem verify_no_secret_false_witness :
    (verifyMain none "f1" "guess" "3.3.3.3").1 = Resp.ok200 false ∧
    (verifyMain none "f1" "guess" "3.3.3.3").2.2 = [] ∧
    loadedMap (verifyMain none "f1" "guess" "3.3.3.3").2.1 = loadedMap none ∧
    (statusMain (verifyMain none "f1" "guess" "3.3.3.3").2.1).2.1 = (statusMain none).2.1 :=
  verify_no_secret_false none "f1" "guess" "3.3.3.3" ⟨.vStr "", false⟩ (by decide) rfl rfl

theorem setSecret_relocks_witness :
    (adminSetMain (some (.json (.vObj [("f1",
        .vObj [("hash", .vStr "$2b$10$old"), ("unlocked", .vBool true)])])))
      "f1" "newpass" "4.4.4.4").1 = Resp.ok200 true ∧
    assocLookup (loadedMap (adminSetMain (some (.json (.vObj [("f1",
        .vObj [("hash", .vStr "$2b$10$old"), ("unlocked", .vBool true)])])))
      "f1" "newpass" "4.4.4.4").2.1) "f1" = some ⟨.vStr (bcryptHash 10 "newpass"), false⟩ :=
  setSecret_relocks _ "f1" "newpass" "4.4.4.4" (by decide) (by decide)

theorem verify_mismatch_frame_witness :
    verifyMain (some (.json (.vObj [("f1",
        .vObj [("hash", .vStr "$2b$10$right"), ("unlocked", .vBool true)])])))
      "f1" "wrong" "5.5.5.5"
      = (Resp.ok200 false,
         some (.json (.vObj [("f1",
           .vObj [("hash", .vStr "$2b$10$right"), ("unlocked", .vBool true)])])), []) ∧
    assocLookup (statusMain (verifyMain (some (.json (.vObj [("f1",
        .vObj [("hash", .vStr "$2b$10$right"), ("unlocked", .vBool true)])])))
      "f1" "wrong" "5.5.5.5").2.1).2.1 "f1" = some true :=
  verify_mismatch_frame _ "f1" "wrong" "5.5.5.5" ⟨.vStr "$2b$10$right", true⟩
    (by decide) rfl rfl rfl

theorem load_after_save_roundtrip_witness :
    ValidMapping initialDb ∧
    loadPasswords (savePasswordsFs initialDb) = .ok (initialDb, savePasswordsFs initialDb) :=
  ⟨by constructor
      · decide
      · intro p hp
        obtain ⟨id, _, rfl⟩ := List.mem_map.mp hp
        rfl,
   load_after_save_roundtrip initialDb
     ⟨by decide, by intro p hp; obtain ⟨id, _, rfl⟩ := List.mem_map.mp hp; rfl⟩⟩

theorem normalizePasswords_shape_witness :
    (normalizePasswords (.vObj [("f1", .vStr "legacy")])).map Prod.fst = FIELD_IDS ∧
    normEntry (.vStr "legacy") = ⟨.vStr "legacy", false⟩ ∧
    normEntry .vNull = ⟨.vStr "", false⟩ :=
  ⟨(normalizePasswords_shape (.vObj [("f1", .vStr "legacy")])).1,
   (normalizePasswords_shape (.vObj [("f1", .vStr "legacy")])).2.2.1 "legacy",
   (normalizePasswords_shape (.vObj [("f1", .vStr "legacy")])).2.2.2 .vNull rfl rfl⟩
